import Mathlib

/-
  Verification of the light-client On-Demand Retrieval (ODR) core
  (light/odr.go of the waltonchain go-wtc repository).

  The Go file defines request variants (TrieRequest, CodeRequest,
  BlockRequest, ReceiptsRequest, ChtRequest), each with a StoreResult
  method writing its accepted answer into a key/value database, plus the
  helper storeProof and the TrieID constructors StateTrieID and
  StorageTrieID. The database, header type, hash function and the
  core.Write helpers are external collaborators; they are modelled here
  from the specification of their contracts.
-/

namespace Odr

/-- Byte sequences, the values exchanged with the database. -/
abbrev Bytes := List Nat

/-- Modelled from the spec: common.Hash, a fixed-size hash value, kept
abstract as a byte sequence. -/
abbrev Hash := List Nat

/-- Modelled from the spec: types.Receipts, a decoded receipt list, kept
abstract. -/
abbrev Receipts := List Nat

namespace Types

/-- Modelled from the spec: types.Header, an already-decoded header
exposing its hash, number, and state root. -/
structure Header where
  hash : Odr.Hash
  number : Nat
  root : Odr.Hash
deriving DecidableEq

end Types

/-- Database keys: content-addressed raw keys for proof nodes and code,
and structured per-block keys for bodies, receipts, headers,
total-difficulty and canonical-hash records (spec section 6). -/
inductive DbKey where
  | raw (k : Bytes)
  | body (h : Odr.Hash) (n : Nat)
  | receipts (h : Odr.Hash) (n : Nat)
  | header (h : Odr.Hash) (n : Nat)
  | td (h : Odr.Hash) (n : Nat)
  | canonical (n : Nat)
deriving DecidableEq

/-- Database values: raw bytes, or the structured records written by the
core.Write helpers. -/
inductive DbVal where
  | bytes (b : Bytes)
  | headerVal (h : Types.Header)
  | tdVal (t : Int)
  | receiptsVal (r : Odr.Receipts)
  | hashVal (h : Odr.Hash)
deriving DecidableEq

/-- Modelled from the spec: the wtcdb.Database key/value store, as an
association list of key/value pairs. -/
abbrev Db := List (DbKey × DbVal)

/-- Database put: replace the value in place when the key is present,
append a fresh entry otherwise. -/
def dbPut : Db → DbKey → DbVal → Db
  | [], k, v => [(k, v)]
  | (k2, v2) :: rest, k, v =>
      if k2 = k then (k, v) :: rest else (k2, v2) :: dbPut rest k v

/-- Database get: first value stored under the key, if any. -/
def dbGet : Db → DbKey → Option DbVal
  | [], _ => none
  | (k2, v2) :: rest, k => if k2 = k then some v2 else dbGet rest k

/-- Modelled from the spec: core.WriteBodyRLP writes the encoded body
bytes under the canonical body key for (hash, number). -/
def WriteBodyRLP (db : Db) (h : Odr.Hash) (n : Nat) (rlp : Bytes) : Db :=
  dbPut db (DbKey.body h n) (DbVal.bytes rlp)

/-- Modelled from the spec: core.WriteBlockReceipts writes the receipt
list under the canonical receipts key for (hash, number). -/
def WriteBlockReceipts (db : Db) (h : Odr.Hash) (n : Nat) (r : Odr.Receipts) : Db :=
  dbPut db (DbKey.receipts h n) (DbVal.receiptsVal r)

/-- Modelled from the spec: core.WriteHeader writes the header record,
keyed by the header hash and number. -/
def WriteHeader (db : Db) (h : Types.Header) : Db :=
  dbPut db (DbKey.header h.hash h.number) (DbVal.headerVal h)

/-- Modelled from the spec: core.WriteTd writes the total-difficulty
record keyed by (hash, number). -/
def WriteTd (db : Db) (h : Odr.Hash) (n : Nat) (t : Int) : Db :=
  dbPut db (DbKey.td h n) (DbVal.tdVal t)

/-- Modelled from the spec: core.WriteCanonicalHash writes the
canonical-hash record mapping number to hash. -/
def WriteCanonicalHash (db : Db) (h : Odr.Hash) (n : Nat) : Db :=
  dbPut db (DbKey.canonical n) (DbVal.hashVal h)

/-- TrieID identifies a state or account storage trie (light/odr.go). -/
structure TrieID where
  BlockHash : Odr.Hash
  Root : Odr.Hash
  BlockNumber : Nat
  AccKey : Bytes
deriving DecidableEq

/-- StateTrieID returns a TrieID for a state trie belonging to a certain
block header (light/odr.go). The nil AccKey of the Go struct is the
empty byte sequence. -/
def StateTrieID (header : Types.Header) : TrieID :=
  { BlockHash := header.hash
    BlockNumber := header.number
    AccKey := []
    Root := header.root }

/-- StorageTrieID returns a TrieID for a contract storage trie at a given
account of a given state trie (light/odr.go). -/
def StorageTrieID (state : TrieID) (addrHash root : Odr.Hash) : TrieID :=
  { BlockHash := state.BlockHash
    BlockNumber := state.BlockNumber
    AccKey := addrHash
    Root := root }

/-- TrieRequest is the ODR request type for state/storage trie entries. -/
structure TrieRequest where
  Id : TrieID
  Key : Bytes
  Proof : List Bytes
deriving DecidableEq

/-- storeProof stores the new trie nodes obtained from a merkle proof in
the database: for each node, compute its content hash (crypto.Keccak256,
passed here as the parameter kec) and write the node only when the hash
is absent (light/odr.go). -/
def storeProof (kec : Bytes → Bytes) (db : Db) : List Bytes → Db
  | [] => db
  | buf :: rest =>
      if dbGet db (DbKey.raw (kec buf)) = none then
        storeProof kec (dbPut db (DbKey.raw (kec buf)) (DbVal.bytes buf)) rest
      else
        storeProof kec db rest

/-- StoreResult of TrieRequest stores the retrieved proof nodes. -/
def TrieRequest.StoreResult (req : TrieRequest) (kec : Bytes → Bytes) (db : Db) : Db :=
  storeProof kec db req.Proof

/-- CodeRequest is the ODR request type for retrieving contract code. -/
structure CodeRequest where
  Id : TrieID
  Hash : Odr.Hash
  Data : Bytes
deriving DecidableEq

/-- StoreResult of CodeRequest writes the code bytes under the code hash. -/
def CodeRequest.StoreResult (req : CodeRequest) (db : Db) : Db :=
  dbPut db (DbKey.raw req.Hash) (DbVal.bytes req.Data)

/-- BlockRequest is the ODR request type for retrieving block bodies. -/
structure BlockRequest where
  Hash : Odr.Hash
  Number : Nat
  Rlp : Bytes
deriving DecidableEq

/-- StoreResult of BlockRequest writes the body RLP for (hash, number). -/
def BlockRequest.StoreResult (req : BlockRequest) (db : Db) : Db :=
  WriteBodyRLP db req.Hash req.Number req.Rlp

/-- ReceiptsRequest is the ODR request type for retrieving receipts. -/
structure ReceiptsRequest where
  Hash : Odr.Hash
  Number : Nat
  Receipts : Odr.Receipts
deriving DecidableEq

/-- StoreResult of ReceiptsRequest writes the receipts for (hash, number). -/
def ReceiptsRequest.StoreResult (req : ReceiptsRequest) (db : Db) : Db :=
  WriteBlockReceipts db req.Hash req.Number req.Receipts

/-- ChtRequest is the ODR request type for canonical-hash-trie entries. -/
structure ChtRequest where
  ChtNum : Nat
  BlockNum : Nat
  ChtRoot : Odr.Hash
  Header : Types.Header
  Td : Int
  Proof : List Bytes
deriving DecidableEq

/-- StoreResult of ChtRequest writes the header record, the
total-difficulty record keyed by the header hash and number, and the
canonical-hash record, in this order; the proof-storing call is
commented out in the source and performs no write. -/
def ChtRequest.StoreResult (req : ChtRequest) (db : Db) : Db :=
  WriteCanonicalHash
    (WriteTd (WriteHeader db req.Header) req.Header.hash req.Header.number req.Td)
    req.Header.hash req.Header.number

/-- OdrRequest, the closed set of request variants, each knowing how to
store its own result. -/
inductive OdrRequest where
  | trie (r : TrieRequest)
  | code (r : CodeRequest)
  | block (r : BlockRequest)
  | receipts (r : ReceiptsRequest)
  | cht (r : ChtRequest)
deriving DecidableEq

/-- Dispatch of StoreResult over the request variants. -/
def OdrRequest.StoreResult (req : OdrRequest) (kec : Bytes → Bytes) (db : Db) : Db :=
  match req with
  | .trie r => r.StoreResult kec db
  | .code r => r.StoreResult db
  | .block r => r.StoreResult db
  | .receipts r => r.StoreResult db
  | .cht r => r.StoreResult db

/-- Modelled from the spec: the cancellation and deadline state of the
context.Context handed to Retrieve. -/
structure OdrContext where
  cancelled : Bool
  deadlinePassed : Bool
deriving DecidableEq

/-- Modelled from the spec: the outcome of the network interaction hidden
behind the OdrBackend — either no peer supplied an answer, or an answer
arrived but failed proof verification, or a verified answer arrived. -/
inductive NetOutcome where
  | noPeer
  | verifyFailed
  | answered
deriving DecidableEq

/-- Modelled from the spec: the failure conditions surfaced by Retrieve. -/
inductive OdrError where
  | contextCancelled
  | deadlineExceeded
  | noPeerAvailable
  | verificationFailed
deriving DecidableEq

/-- Modelled from the spec: OdrBackend.Retrieve, whose implementation is
outside this file. On any failure (context cancelled, deadline exceeded,
no peer, verification failure) it returns an error and invokes no store
routine; only on success does it invoke the StoreResult of the request,
exactly once. The result pairs the error, if any, with the database
state afterwards. -/
def Retrieve (kec : Bytes → Bytes) (ctx : OdrContext) (net : NetOutcome)
    (req : OdrRequest) (db : Db) : Option OdrError × Db :=
  if ctx.cancelled then (some OdrError.contextCancelled, db)
  else if ctx.deadlinePassed then (some OdrError.deadlineExceeded, db)
  else
    match net with
    | NetOutcome.noPeer => (some OdrError.noPeerAvailable, db)
    | NetOutcome.verifyFailed => (some OdrError.verificationFailed, db)
    | NetOutcome.answered => (none, req.StoreResult kec db)

/-- Modelled from the spec: the database contract where put may fail
(get and put both return an error in the Go interface; the Go code of
storeProof discards both). The flag putFails makes every put rejected. -/
structure FDb where
  store : Db
  putFails : Bool
deriving DecidableEq

/-- Fallible put: returns the new database and an error flag; a rejected
put leaves the store unchanged. -/
def FDb.Put (db : FDb) (k : DbKey) (v : DbVal) : FDb × Bool :=
  if db.putFails then (db, true)
  else ({ db with store := dbPut db.store k v }, false)

/-- Fallible get, mirroring the Go call val, _ := db.Get(hash): the
error component is discarded by every caller in the source. -/
def FDb.Get (db : FDb) (k : DbKey) : Option DbVal × Bool :=
  (dbGet db.store k, false)

/-- storeProof over the fallible database, mirroring the source exactly:
the error returned by Get is bound to the blank identifier and the error
returned by Put is not captured at all; the function itself returns no
error, as the Go function returns nothing. -/
def storeProofF (kec : Bytes → Bytes) (db : FDb) : List Bytes → FDb
  | [] => db
  | buf :: rest =>
      if (db.Get (DbKey.raw (kec buf))).1 = none then
        storeProofF kec (db.Put (DbKey.raw (kec buf)) (DbVal.bytes buf)).1 rest
      else
        storeProofF kec db rest

/-- StoreResult dispatch over the fallible database. Every variant
mirrors the source: StoreResult returns nothing, so every put error is
dropped on the floor. -/
def StoreResultF (req : OdrRequest) (kec : Bytes → Bytes) (db : FDb) : FDb :=
  match req with
  | .trie r => storeProofF kec db r.Proof
  | .code r => (db.Put (DbKey.raw r.Hash) (DbVal.bytes r.Data)).1
  | .block r => (db.Put (DbKey.body r.Hash r.Number) (DbVal.bytes r.Rlp)).1
  | .receipts r => (db.Put (DbKey.receipts r.Hash r.Number) (DbVal.receiptsVal r.Receipts)).1
  | .cht r =>
      (FDb.Put
        (FDb.Put
          (FDb.Put db (DbKey.header r.Header.hash r.Header.number) (DbVal.headerVal r.Header)).1
          (DbKey.td r.Header.hash r.Header.number) (DbVal.tdVal r.Td)).1
        (DbKey.canonical r.Header.number) (DbVal.hashVal r.Header.hash)).1

/-- Retrieve over the fallible database: identical control flow to
Retrieve; the error component can only report retrieval-level failures
because StoreResult has no error channel. -/
def RetrieveF (kec : Bytes → Bytes) (ctx : OdrContext) (net : NetOutcome)
    (req : OdrRequest) (db : FDb) : Option OdrError × FDb :=
  if ctx.cancelled then (some OdrError.contextCancelled, db)
  else if ctx.deadlinePassed then (some OdrError.deadlineExceeded, db)
  else
    match net with
    | NetOutcome.noPeer => (some OdrError.noPeerAvailable, db)
    | NetOutcome.verifyFailed => (some OdrError.verificationFailed, db)
    | NetOutcome.answered => (none, StoreResultF req kec db)

/-- A concrete stand-in content-hash function used to evaluate the
development on concrete inputs. -/
def kecTest (bs : Bytes) : Bytes := 7 :: bs

/-- Reading back the key just written yields the value written. -/
theorem dbGet_dbPut_same (db : Db) (k : DbKey) (v : DbVal) :
    dbGet (dbPut db k v) k = some v := by
  induction db with
  | nil => simp [dbPut, dbGet]
  | cons hd tl ih =>
      obtain ⟨k2, v2⟩ := hd
      by_cases h : k2 = k <;> simp [dbPut, dbGet, h, ih]

/-- Writing one key leaves every other key unchanged. -/
theorem dbGet_dbPut_ne (db : Db) (k k2 : DbKey) (v : DbVal) (h : k2 ≠ k) :
    dbGet (dbPut db k v) k2 = dbGet db k2 := by
  induction db with
  | nil => simp [dbPut, dbGet, Ne.symm h]
  | cons hd tl ih =>
      obtain ⟨k3, v3⟩ := hd
      by_cases h3 : k3 = k
      · subst h3; simp [dbPut, dbGet, h, Ne.symm h]
      · by_cases h2 : k3 = k2
        · subst h2
          simp [dbPut, dbGet, h3]
        · simp [dbPut, dbGet, h3, h2, ih]

/-- Writing a value that is already stored under the key leaves the
database unchanged. -/
theorem dbPut_get_eq (db : Db) (k : DbKey) (v : DbVal)
    (h : dbGet db k = some v) : dbPut db k v = db := by
  induction db with
  | nil => simp [dbGet] at h
  | cons hd tl ih =>
      obtain ⟨k2, v2⟩ := hd
      by_cases h2 : k2 = k
      · subst h2
        simp [dbGet] at h
        simp [dbPut, h]
      · simp [dbGet, h2] at h
        simp [dbPut, h2, ih h]

/-- Writing the same key and value twice in a row equals writing once. -/
theorem dbPut_dbPut_same (db : Db) (k : DbKey) (v : DbVal) :
    dbPut (dbPut db k v) k v = dbPut db k v :=
  dbPut_get_eq _ _ _ (dbGet_dbPut_same db k v)

/-- storeProof never modifies an existing entry: a value already stored
under a key survives the whole proof store, unchanged. -/
theorem storeProof_preserve (kec : Bytes → Bytes) (p : List Bytes) (db : Db)
    (k : DbKey) (v : DbVal) (h : dbGet db k = some v) :
    dbGet (storeProof kec db p) k = some v := by
  induction p generalizing db with
  | nil => simpa [storeProof] using h
  | cons buf rest ih =>
      by_cases hb : dbGet db (DbKey.raw (kec buf)) = none
      · have hk : k ≠ DbKey.raw (kec buf) := by
          intro he
          rw [he, hb] at h
          cases h
        simp only [storeProof, if_pos hb]
        exact ih _ (by rw [dbGet_dbPut_ne _ _ _ _ hk]; exact h)
      · simp only [storeProof, if_neg hb]
        exact ih _ h

/-- After storeProof, the content hash of every node of the proof is
present in the database. -/
theorem storeProof_present (kec : Bytes → Bytes) (p : List Bytes) (db : Db)
    (buf : Bytes) (hmem : buf ∈ p) :
    ∃ v, dbGet (storeProof kec db p) (DbKey.raw (kec buf)) = some v := by
  induction p generalizing db with
  | nil => cases hmem
  | cons b rest ih =>
      rcases List.mem_cons.mp hmem with hb | hb
      · subst hb
        by_cases h0 : dbGet db (DbKey.raw (kec buf)) = none
        · simp only [storeProof, if_pos h0]
          exact ⟨DbVal.bytes buf,
            storeProof_preserve kec rest _ _ _ (dbGet_dbPut_same db _ _)⟩
        · obtain ⟨v, hv⟩ := Option.ne_none_iff_exists.mp h0
          simp only [storeProof, if_neg h0]
          exact ⟨v, storeProof_preserve kec rest _ _ _ hv.symm⟩
      · by_cases h0 : dbGet db (DbKey.raw (kec b)) = none
        · simp only [storeProof, if_pos h0]
          exact ih _ hb
        · simp only [storeProof, if_neg h0]
          exact ih _ hb

/-- storeProof is the identity when every node of the proof already has
its content hash present in the database. -/
theorem storeProof_all_present (kec : Bytes → Bytes) (p : List Bytes) (db : Db)
    (h : ∀ buf ∈ p, dbGet db (DbKey.raw (kec buf)) ≠ none) :
    storeProof kec db p = db := by
  induction p with
  | nil => rfl
  | cons b rest ih =>
      have hb : dbGet db (DbKey.raw (kec b)) ≠ none := h b (List.mem_cons_self b rest)
      simp only [storeProof, if_neg hb]
      exact ih fun buf hm => h buf (List.mem_cons_of_mem b hm)

/-- storeProof is idempotent. -/
theorem storeProof_idem (kec : Bytes → Bytes) (p : List Bytes) (db : Db) :
    storeProof kec (storeProof kec db p) p = storeProof kec db p := by
  apply storeProof_all_present
  intro buf hmem
  obtain ⟨v, hv⟩ := storeProof_present kec p db buf hmem
  rw [hv]
  exact fun he => by cases he

/-- A triple of puts at pairwise distinct keys, repeated, equals the
triple done once. -/
theorem dbPut3_idem (db : Db) (k1 k2 k3 : DbKey) (v1 v2 v3 : DbVal)
    (h12 : k1 ≠ k2) (h13 : k1 ≠ k3) (h23 : k2 ≠ k3) :
    dbPut (dbPut (dbPut (dbPut (dbPut (dbPut db k1 v1) k2 v2) k3 v3) k1 v1) k2 v2) k3 v3
      = dbPut (dbPut (dbPut db k1 v1) k2 v2) k3 v3 := by
  have g1 : dbGet (dbPut (dbPut (dbPut db k1 v1) k2 v2) k3 v3) k1 = some v1 := by
    rw [dbGet_dbPut_ne _ _ _ _ h13, dbGet_dbPut_ne _ _ _ _ h12, dbGet_dbPut_same]
  have g2 : dbGet (dbPut (dbPut (dbPut db k1 v1) k2 v2) k3 v3) k2 = some v2 := by
    rw [dbGet_dbPut_ne _ _ _ _ h23, dbGet_dbPut_same]
  have g3 : dbGet (dbPut (dbPut (dbPut db k1 v1) k2 v2) k3 v3) k3 = some v3 :=
    dbGet_dbPut_same _ _ _
  rw [dbPut_get_eq _ _ _ g1, dbPut_get_eq _ _ _ g2, dbPut_get_eq _ _ _ g3]

/-- With every put rejected, storeProofF leaves the fallible database
untouched and surfaces nothing. -/
theorem storeProofF_putFails (kec : Bytes → Bytes) (p : List Bytes) (s : Db) :
    storeProofF kec ⟨s, true⟩ p = ⟨s, true⟩ := by
  induction p with
  | nil => rfl
  | cons b rest ih => simp [storeProofF, FDb.Put, ih]

/-- With every put rejected, no store routine changes the store. -/
theorem StoreResultF_putFails (kec : Bytes → Bytes) (req : OdrRequest) (s : Db) :
    StoreResultF req kec ⟨s, true⟩ = ⟨s, true⟩ := by
  cases req with
  | trie r => exact storeProofF_putFails kec r.Proof s
  | code r => simp [StoreResultF, FDb.Put]
  | block r => simp [StoreResultF, FDb.Put]
  | receipts r => simp [StoreResultF, FDb.Put]
  | cht r => simp [StoreResultF, FDb.Put]

/-- C1: for every request variant and every database state, invoking the
StoreResult routine of the variant twice with the same accepted answer
produces storage contents identical to invoking it once; the store
routines are total functions without an error output, so no error
occurs. -/
theorem storeResult_idempotent (kec : Bytes → Bytes) (req : OdrRequest) (db : Db) :
    req.StoreResult kec (req.StoreResult kec db) = req.StoreResult kec db := by
  cases req with
  | trie r => exact storeProof_idem kec r.Proof db
  | code r => exact dbPut_dbPut_same db _ _
  | block r => exact dbPut_dbPut_same db _ _
  | receipts r => exact dbPut_dbPut_same db _ _
  | cht r =>
      exact dbPut3_idem db _ _ _ _ _ _
        (by simp) (by simp) (by simp)

/-- C2: storeProof writes a node only when its content hash is absent:
a proof consisting of the same node twice stores exactly what the
single node stores; on an empty store it leaves exactly the one entry
keyed by the content hash of the node; and a node whose hash is already
present is skipped, so the value stored under that hash is unchanged by
any proof containing it. -/
theorem storeProof_dedup (kec : Bytes → Bytes) (b : Bytes) (db : Db) :
    storeProof kec db [b, b] = storeProof kec db [b]
    ∧ storeProof kec [] [b, b] = [(DbKey.raw (kec b), DbVal.bytes b)]
    ∧ (∀ p v, dbGet db (DbKey.raw (kec b)) = some v →
        dbGet (storeProof kec db p) (DbKey.raw (kec b)) = some v) := by
  refine ⟨?_, ?_, ?_⟩
  · by_cases h : dbGet db (DbKey.raw (kec b)) = none
    · simp [storeProof, h, dbGet_dbPut_same]
    · simp [storeProof, h]
  · simp [storeProof, dbGet, dbPut]
  · exact fun p v h => storeProof_preserve kec p db _ v h

/-- Witness for C2 at a concrete store holding the hash of the node. -/
theorem storeProof_dedup_witness :
    dbGet [(DbKey.raw (kecTest [1, 2]), DbVal.bytes [9])] (DbKey.raw (kecTest [1, 2]))
        = some (DbVal.bytes [9])
    ∧ dbGet (storeProof kecTest [(DbKey.raw (kecTest [1, 2]), DbVal.bytes [9])] [[3], [1, 2]])
        (DbKey.raw (kecTest [1, 2])) = some (DbVal.bytes [9]) :=
  ⟨by decide,
    (storeProof_dedup kecTest [1, 2] [(DbKey.raw (kecTest [1, 2]), DbVal.bytes [9])]).2.2
      [[3], [1, 2]] (DbVal.bytes [9]) (by decide)⟩

/-- C3: whenever Retrieve fails — context cancelled, deadline exceeded,
no peer, or verification failure — no store routine runs and the
database is unchanged; in particular a context cancelled before the
call yields an error and no store. -/
theorem retrieve_failure_no_store (kec : Bytes → Bytes) (ctx : OdrContext)
    (net : NetOutcome) (req : OdrRequest) (db : Db) :
    (∀ e, (Retrieve kec ctx net req db).1 = some e → (Retrieve kec ctx net req db).2 = db)
    ∧ (ctx.cancelled = true →
        (Retrieve kec ctx net req db).1 = some OdrError.contextCancelled
        ∧ (Retrieve kec ctx net req db).2 = db) := by
  constructor
  · intro e he
    by_cases h1 : ctx.cancelled <;> by_cases h2 : ctx.deadlinePassed <;>
      cases net <;> simp_all [Retrieve]
  · intro hc
    simp [Retrieve, hc]

/-- Witness for C3 on a concrete cancelled context. -/
theorem retrieve_failure_no_store_witness :
    (OdrContext.mk true false).cancelled = true
    ∧ (Retrieve kecTest ⟨true, false⟩ NetOutcome.answered
        (OdrRequest.code ⟨⟨[], [], 0, []⟩, [5], [6]⟩) []).1 = some OdrError.contextCancelled
    ∧ (Retrieve kecTest ⟨true, false⟩ NetOutcome.answered
        (OdrRequest.code ⟨⟨[], [], 0, []⟩, [5], [6]⟩) []).2 = [] :=
  ⟨rfl,
    ((retrieve_failure_no_store kecTest ⟨true, false⟩ NetOutcome.answered
      (OdrRequest.code ⟨⟨[], [], 0, []⟩, [5], [6]⟩) []).2 rfl).1,
    ((retrieve_failure_no_store kecTest ⟨true, false⟩ NetOutcome.answered
      (OdrRequest.code ⟨⟨[], [], 0, []⟩, [5], [6]⟩) []).2 rfl).2⟩

/-- C4: the StoreResult of ChtRequest is exactly three writes in order:
the header record, the total-difficulty record keyed by the header hash
and number, and the canonical-hash record; afterwards the
canonical-hash lookup for the header number yields the header hash and
the total-difficulty record holds the carried Td. -/
theorem chtRequest_three_writes (req : ChtRequest) (db : Db) :
    req.StoreResult db
      = dbPut (dbPut (dbPut db
          (DbKey.header req.Header.hash req.Header.number) (DbVal.headerVal req.Header))
          (DbKey.td req.Header.hash req.Header.number) (DbVal.tdVal req.Td))
          (DbKey.canonical req.Header.number) (DbVal.hashVal req.Header.hash)
    ∧ dbGet (req.StoreResult db) (DbKey.canonical req.Header.number)
        = some (DbVal.hashVal req.Header.hash)
    ∧ dbGet (req.StoreResult db) (DbKey.td req.Header.hash req.Header.number)
        = some (DbVal.tdVal req.Td) := by
  refine ⟨rfl, dbGet_dbPut_same _ _ _, ?_⟩
  simp only [ChtRequest.StoreResult, WriteCanonicalHash, WriteTd, WriteHeader]
  rw [dbGet_dbPut_ne _ _ _ _ (by simp), dbGet_dbPut_same]

/-- C6: StateTrieID returns the TrieID whose block hash is the hash of
the header, whose block number is the number of the header, whose root
is the state root of the header, and whose account key is empty; being
a plain Lean function it is pure and total, with no failure mode. -/
theorem stateTrieID_fields (h : Types.Header) :
    (StateTrieID h).BlockHash = h.hash
    ∧ (StateTrieID h).BlockNumber = h.number
    ∧ (StateTrieID h).Root = h.root
    ∧ (StateTrieID h).AccKey = [] :=
  ⟨rfl, rfl, rfl, rfl⟩

/-- C7: StorageTrieID inherits block hash and number from the state
identity, takes the given account key hash and storage root, performs
no validation, and is deterministic: equal inputs give equal outputs. -/
theorem storageTrieID_fields (state : TrieID) (addrHash root : Odr.Hash)
    (state2 : TrieID) (a2 r2 : Odr.Hash)
    (hs : state = state2) (ha : addrHash = a2) (hr : root = r2) :
    (StorageTrieID state addrHash root).BlockHash = state.BlockHash
    ∧ (StorageTrieID state addrHash root).BlockNumber = state.BlockNumber
    ∧ (StorageTrieID state addrHash root).AccKey = addrHash
    ∧ (StorageTrieID state addrHash root).Root = root
    ∧ StorageTrieID state addrHash root = StorageTrieID state2 a2 r2 := by
  subst hs; subst ha; subst hr
  exact ⟨rfl, rfl, rfl, rfl, rfl⟩

/-- Witness for C7 at concrete equal inputs. -/
theorem storageTrieID_fields_witness :
    (StorageTrieID ⟨[1], [2], 3, []⟩ [4] [5]).AccKey = [4]
    ∧ StorageTrieID ⟨[1], [2], 3, []⟩ [4] [5] = StorageTrieID ⟨[1], [2], 3, []⟩ [4] [5] :=
  ⟨(storageTrieID_fields ⟨[1], [2], 3, []⟩ [4] [5] ⟨[1], [2], 3, []⟩ [4] [5]
      rfl rfl rfl).2.2.1,
    (storageTrieID_fields ⟨[1], [2], 3, []⟩ [4] [5] ⟨[1], [2], 3, []⟩ [4] [5]
      rfl rfl rfl).2.2.2.2⟩

/-- C8: the StoreResult of CodeRequest writes the carried code bytes
unconditionally under the carried code hash: afterwards the get at the
hash yields the data. -/
theorem codeRequest_store_writes (id : TrieID) (h : Odr.Hash) (d : Bytes) (db : Db) :
    dbGet ((CodeRequest.mk id h d).StoreResult db) (DbKey.raw h) = some (DbVal.bytes d) :=
  dbGet_dbPut_same _ _ _

/-- C9: the effect of the StoreResult of ChtRequest depends only on the
Header and Td fields: two requests agreeing on those, whatever their
ChtNum, BlockNum, ChtRoot and Proof, produce identical databases; in
particular the proof nodes are never stored and the keys come from the
header itself, not from BlockNum. -/
theorem chtRequest_store_depends_only_header_td (db : Db) (r1 r2 : ChtRequest)
    (hh : r1.Header = r2.Header) (ht : r1.Td = r2.Td) :
    r1.StoreResult db = r2.StoreResult db := by
  simp only [ChtRequest.StoreResult, hh, ht]

/-- Witness for C9: two requests differing in ChtNum, BlockNum, ChtRoot
and Proof but agreeing on Header and Td store identically. -/
theorem chtRequest_store_depends_witness :
    (ChtRequest.mk 0 1 [2] ⟨[3], 4, [5]⟩ 6 [[7]]).Header
        = (ChtRequest.mk 8 9 [10] ⟨[3], 4, [5]⟩ 6 []).Header
    ∧ (ChtRequest.mk 0 1 [2] ⟨[3], 4, [5]⟩ 6 [[7]]).Td
        = (ChtRequest.mk 8 9 [10] ⟨[3], 4, [5]⟩ 6 []).Td
    ∧ (ChtRequest.mk 0 1 [2] ⟨[3], 4, [5]⟩ 6 [[7]]).StoreResult []
        = (ChtRequest.mk 8 9 [10] ⟨[3], 4, [5]⟩ 6 []).StoreResult [] :=
  ⟨rfl, rfl,
    chtRequest_store_depends_only_header_td []
      (ChtRequest.mk 0 1 [2] ⟨[3], 4, [5]⟩ 6 [[7]])
      (ChtRequest.mk 8 9 [10] ⟨[3], 4, [5]⟩ 6 []) rfl rfl⟩

/-- C10: the effect of the StoreResult of TrieRequest depends only on
the Proof field: two requests with equal Proof, whatever their Id and
Key, produce identical databases, and an empty Proof leaves the
database unchanged. -/
theorem trieRequest_store_depends_only_proof (kec : Bytes → Bytes) (db : Db)
    (r1 r2 : TrieRequest) (hp : r1.Proof = r2.Proof) :
    r1.StoreResult kec db = r2.StoreResult kec db
    ∧ (r1.Proof = [] → r1.StoreResult kec db = db) := by
  constructor
  · simp only [TrieRequest.StoreResult, hp]
  · intro h0
    simp only [TrieRequest.StoreResult, h0, storeProof]

/-- Witness for C10: two requests differing in Id and Key with the same
empty Proof. -/
theorem trieRequest_store_depends_witness :
    (TrieRequest.mk ⟨[], [], 0, []⟩ [1] []).Proof
        = (TrieRequest.mk ⟨[9], [8], 7, [6]⟩ [5] []).Proof
    ∧ (TrieRequest.mk ⟨[], [], 0, []⟩ [1] []).StoreResult kecTest []
        = (TrieRequest.mk ⟨[9], [8], 7, [6]⟩ [5] []).StoreResult kecTest []
    ∧ (TrieRequest.mk ⟨[], [], 0, []⟩ [1] []).StoreResult kecTest [] = [] :=
  ⟨rfl,
    (trieRequest_store_depends_only_proof kecTest []
      (TrieRequest.mk ⟨[], [], 0, []⟩ [1] [])
      (TrieRequest.mk ⟨[9], [8], 7, [6]⟩ [5] []) rfl).1,
    (trieRequest_store_depends_only_proof kecTest []
      (TrieRequest.mk ⟨[], [], 0, []⟩ [1] [])
      (TrieRequest.mk ⟨[9], [8], 7, [6]⟩ [5] []) rfl).2 rfl⟩

/-- C5 counterexample: with a database that rejects every put, Retrieve
on a successful answer reports no error while the write of the code
bytes was dropped: the store failure is not propagated to the caller.
In the source, StoreResult returns nothing and storeProof discards the
errors of Get and Put, so no write rejection can reach Retrieve. -/
theorem store_failure_not_propagated_cex :
    (RetrieveF kecTest ⟨false, false⟩ NetOutcome.answered
        (OdrRequest.code ⟨⟨[], [], 0, []⟩, [5], [6]⟩) ⟨[], true⟩).1 = none
    ∧ ((RetrieveF kecTest ⟨false, false⟩ NetOutcome.answered
        (OdrRequest.code ⟨⟨[], [], 0, []⟩, [5], [6]⟩) ⟨[], true⟩).2).store = []
    ∧ dbGet ((RetrieveF kecTest ⟨false, false⟩ NetOutcome.answered
        (OdrRequest.code ⟨⟨[], [], 0, []⟩, [5], [6]⟩) ⟨[], true⟩).2).store
        (DbKey.raw [5]) = none := by
  decide

/-- C5 amended: store routines have no error channel, so a database
write rejection during a store routine is silently dropped: the error
reported by Retrieve does not depend on whether puts are rejected, and
when every put is rejected nothing is written and nothing is retried:
the store is left exactly as it was. -/
theorem store_failure_silently_dropped (kec : Bytes → Bytes) (ctx : OdrContext)
    (net : NetOutcome) (req : OdrRequest) (s : Db) (b : Bool) :
    (RetrieveF kec ctx net req ⟨s, b⟩).1 = (RetrieveF kec ctx net req ⟨s, false⟩).1
    ∧ ((RetrieveF kec ctx net req ⟨s, true⟩).2).store = s := by
  constructor
  · by_cases h1 : ctx.cancelled <;> by_cases h2 : ctx.deadlinePassed <;>
      cases net <;> simp [RetrieveF, h1, h2]
  · by_cases h1 : ctx.cancelled <;> by_cases h2 : ctx.deadlinePassed <;>
      cases net <;> simp [RetrieveF, h1, h2, StoreResultF_putFails]

end Odr
